import Mathlib

/-!
# Particle-Life: verification of the core engine

Shallow embedding of the core simulation engine of the Particle-Life
repository (`src/simulation.py`, `src/particle.py`) over exact rational
arithmetic, together with theorems settling the specification claims.

Conventions of the embedding:
* Python/NumPy floating-point numbers are embedded as `ℚ` (the exact
  real-arithmetic reading of the source text); every float literal of the
  source appears as the corresponding rational.
* `np.sqrt` has no exact rational counterpart, so every function of the
  source that consumes a square root (`distance`, `speed`) takes that value
  as an explicit argument `r` (resp. `s`), and each theorem carries the
  hypotheses `0 ≤ r` and `r ^ 2 = (the squared quantity the source takes
  the root of)`, pinning it to the unique nonnegative square root.
* The spatial grid (`numba.typed.List` of lists of particle indices) is a
  `List (List ℕ)`; Python's negative-index semantics on list access is
  modelled explicitly (`pyIdx`), since the ghost-cell arithmetic of
  `_update_grid_numba` can produce negative flat indices.
-/

namespace ParticleLife

/-- Squared Euclidean norm of a 2-vector. -/
def normSq (v : ℚ × ℚ) : ℚ := v.1 ^ 2 + v.2 ^ 2

/-- Toroidal correction of one displacement component
(`src/simulation.py` lines 131-135): if the component exceeds half the
world dimension in magnitude, shift it by a full dimension. -/
def wrapDelta (L d : ℚ) : ℚ :=
  if d > L / 2 then d - L
  else if d < -(L / 2) then d + L
  else d

/-- Shortest toroidal displacement vector from `a` to `b`
(neighbor minus self, then per-component correction), as computed in
`_calculate_forces_numba`. -/
def torDelta (W H : ℚ) (a b : ℚ × ℚ) : ℚ × ℚ :=
  (wrapDelta W (b.1 - a.1), wrapDelta H (b.2 - a.2))

/-- Squared toroidal distance between two positions
(`distance_sq` of `_calculate_forces_numba`, line 137). -/
def torDistSq (W H : ℚ) (a b : ℚ × ℚ) : ℚ := normSq (torDelta W H a b)

/-- The literal `1e-9` used to pad the normalisation denominator
(`src/simulation.py` line 142). -/
def eps : ℚ := 1 / 1000000000

/-- Force contribution of one ordered pair (self `a`, neighbor `b`),
the body of the neighbor loop of `_calculate_forces_numba`
(`src/simulation.py` lines 128-170).  `r` stands for
`np.sqrt(distance_sq)` (line 140) and is constrained by each theorem's
hypotheses to satisfy `0 ≤ r` and `r ^ 2 = torDistSq W H a b`. -/
def forceContrib (W H rmin rmax rep matv : ℚ) (a b : ℚ × ℚ) (r : ℚ) : ℚ × ℚ :=
  let d := torDelta W H a b
  let distSq := normSq d
  if 0 < distSq ∧ distSq < rmax ^ 2 then
    let dir := (d.1 / (r + eps), d.2 / (r + eps))
    if distSq < rmin ^ 2 then
      (-dir.1 * rep * (1 - r / rmin), -dir.2 * rep * (1 - r / rmin))
    else
      let ideal := (rmin + rmax) / 2
      let mag :=
        if r < ideal then matv * (r - rmin) / (ideal - rmin)
        else matv * (1 - (r - ideal) / (rmax - ideal))
      (dir.1 * mag, dir.2 * mag)
  else (0, 0)

/-- The force the specification's words prescribe in the short-range regime
(spec §4.3): magnitude `repulsion_strength * (1 - r/radius_min)`,
direction `-d/r`.  Stated from the spec for comparison with
`forceContrib`. -/
def specRepulsionForce (rmin rep : ℚ) (d : ℚ × ℚ) (r : ℚ) : ℚ × ℚ :=
  (-(d.1 / r) * rep * (1 - r / rmin), -(d.2 / r) * rep * (1 - r / rmin))

/-- The force the specification's words prescribe in the long-range regime
(spec §4.3): triangular profile ramping linearly from `0` at `radius_min`
to `matrix[a][b]` at `ideal = (radius_min + radius_max)/2` and back down
to `0` at `radius_max`, applied in direction `d/r`.  Stated from the spec
for comparison with `forceContrib`. -/
def specInteractionForce (rmin rmax matv : ℚ) (d : ℚ × ℚ) (r : ℚ) : ℚ × ℚ :=
  let ideal := (rmin + rmax) / 2
  let mag :=
    if r < ideal then matv * ((r - rmin) / (ideal - rmin))
    else matv * ((rmax - r) / (rmax - ideal))
  ((d.1 / r) * mag, (d.2 / r) * mag)

/-- Python's `%` on floats for a positive modulus, in exact arithmetic:
`x % L = x - L * ⌊x / L⌋` (result has the sign of the modulus).  Used by
the final wrap of `Simulation.step` (`src/simulation.py` lines 297-298). -/
def wrapCoord (L x : ℚ) : ℚ := x - L * ⌊x / L⌋

/-- Velocity after force application and friction, steps 3-4 of
`Simulation.step` (`src/simulation.py` lines 266-269). -/
def velAfterForces (friction dt : ℚ) (vel force : ℚ × ℚ) : ℚ × ℚ :=
  let v1 := (vel.1 + force.1 * dt, vel.2 + force.2 * dt)
  ((1 - friction) * v1.1, (1 - friction) * v1.2)

/-- The velocity cap, step 5 of `Simulation.step`
(`src/simulation.py` lines 271-279): particles with `speed > max_velocity`
are rescaled to `max_velocity`.  `s` stands for
`np.linalg.norm(velocity)`, constrained by hypotheses to the exact norm. -/
def capVelocity (maxv : ℚ) (v : ℚ × ℚ) (s : ℚ) : ℚ × ℚ :=
  if maxv < s then ((v.1 / s) * maxv, (v.2 / s) * maxv) else v

/-- One particle's pass through steps 3-8 of `Simulation.step`
(`src/simulation.py` lines 265-298): force application, friction, velocity
cap, stiction (which re-reads the post-cap speed: line 286 overwrites the
speed of capped particles with `max_velocity`), position update, toroidal
wrap.  Returns (new position, new velocity).  `s` is the exact norm of the
post-friction velocity. -/
def stepParticle (maxv friction dt threshold W H : ℚ)
    (pos vel force : ℚ × ℚ) (s : ℚ) : (ℚ × ℚ) × (ℚ × ℚ) :=
  let v2 := velAfterForces friction dt vel force
  let v3 := capVelocity maxv v2 s
  let s3 := if maxv < s then maxv else s
  let v4 := if 0 < threshold ∧ s3 < threshold then ((0 : ℚ), (0 : ℚ)) else v3
  let p := (wrapCoord W (pos.1 + v4.1 * dt), wrapCoord H (pos.2 + v4.2 * dt))
  (p, v4)

/-- Grid dimensions chosen by `Simulation.__init__`
(`src/simulation.py` lines 230-232): `int(np.ceil(W / cell))` per axis. -/
def simGridDims (W H cellSize : ℚ) : ℕ × ℕ :=
  ((⌈W / cellSize⌉).toNat, (⌈H / cellSize⌉).toNat)

/-- The construction-time behaviour of `Simulation.__init__`
(`src/simulation.py` lines 190-243): the parameters are stored, and the
ONLY validation performed is the interaction-matrix shape check of lines
217-227 (`matrix_shape != (num_types, num_types)` raises `ValueError`).
The radii are stored without any comparison between them. -/
def Simulation_init (particle_types rows cols : ℕ) (rmin rmax W H : ℚ) :
    Except String (ℚ × ℚ × ℕ × ℕ) :=
  if (rows, cols) ≠ (particle_types, particle_types) then
    .error "Configuration error: Interaction matrix shape does not match particle_types."
  else
    .ok (rmin, rmax, (simGridDims W H rmax).1, (simGridDims W H rmax).2)

/-- Python list-index normalisation for an in-range index of a list of
length `len`: a negative index counts from the end.  `_update_grid_numba`'s
ghost arithmetic produces negative flat indices when a world dimension is
not an exact multiple of the cell size, and `numba.typed.List` follows
Python list semantics for them. -/
def pyIdx (len : ℕ) (i : ℤ) : ℕ := (if i < 0 then i + len else i).toNat

/-- `grid[flat].append(j)` on the flat cell list, with Python index
semantics. -/
def gridAppend (grid : List (List ℕ)) (flat : ℤ) (j : ℕ) : List (List ℕ) :=
  let k := pyIdx grid.length flat
  grid.set k (grid.getD k [] ++ [j])

/-- The flat indices of all cells a particle at `pos` is inserted into by
`_update_grid_numba` (`src/simulation.py` lines 56-91), in source order:
the primary cell, then up to four edge ghosts, then up to four corner
ghosts, each guarded by the source's nearness tests. -/
def ghostCells (gw gh : ℕ) (cellSize W H : ℚ) (pos : ℚ × ℚ) : List ℤ :=
  let cx : ℤ := ⌊pos.1 / cellSize⌋
  let cy : ℤ := ⌊pos.2 / cellSize⌋
  let nl := pos.1 < cellSize
  let nr := pos.1 > W - cellSize
  let nt := pos.2 < cellSize
  let nb := pos.2 > H - cellSize
  [cx + cy * gw]
    ++ (if nr then [(cx - gw + 1) + cy * gw] else [])
    ++ (if nl then [(cx + gw - 1) + cy * gw] else [])
    ++ (if nb then [cx + (cy - gh + 1) * gw] else [])
    ++ (if nt then [cx + (cy + gh - 1) * gw] else [])
    ++ (if nr ∧ nb then [(cx - gw + 1) + (cy - gh + 1) * gw] else [])
    ++ (if nl ∧ nb then [(cx + gw - 1) + (cy - gh + 1) * gw] else [])
    ++ (if nr ∧ nt then [(cx - gw + 1) + (cy + gh - 1) * gw] else [])
    ++ (if nl ∧ nt then [(cx + gw - 1) + (cy + gh - 1) * gw] else [])

/-- Insertion of one particle index into the grid: one `append` per cell
of `ghostCells`, in source order. -/
def insertParticle (gw gh : ℕ) (cellSize W H : ℚ)
    (grid : List (List ℕ)) (j : ℕ) (pos : ℚ × ℚ) : List (List ℕ) :=
  (ghostCells gw gh cellSize W H pos).foldl (fun g flat => gridAppend g flat j) grid

/-- `_update_grid_numba` (`src/simulation.py` lines 42-91): clear all
cells, then insert every particle index in order. -/
def updateGrid (gw gh : ℕ) (cellSize W H : ℚ) (ps : List (ℚ × ℚ)) :
    List (List ℕ) :=
  (List.range ps.length).foldl
    (fun g i => insertParticle gw gh cellSize W H g i (ps.getD i (0, 0)))
    (List.replicate (gw * gh) [])

/-- The flat indices of the 3×3 block of cells scanned for a particle at
`pos` by `_calculate_forces_numba` (`src/simulation.py` lines 115-123),
clipped to the grid bounds. -/
def scanCells (gw gh : ℕ) (cellSize : ℚ) (pos : ℚ × ℚ) : List ℤ :=
  let cx : ℤ := ⌊pos.1 / cellSize⌋
  let cy : ℤ := ⌊pos.2 / cellSize⌋
  ([-1, 0, 1] : List ℤ).flatMap (fun dx =>
    ([-1, 0, 1] : List ℤ).flatMap (fun dy =>
      let nx := cx + dx
      let ny := cy + dy
      if 0 ≤ nx ∧ nx < gw ∧ 0 ≤ ny ∧ ny < gh then [nx + ny * gw] else []))

/-- The neighbor indices visited for particle `i` at `pos` by the 3×3-cell
scan (`src/simulation.py` lines 118-126): contents of the scanned cells
with the self-index skipped (`if i == j: continue`). -/
def visitedNeighbors (grid : List (List ℕ)) (gw gh : ℕ) (cellSize : ℚ)
    (i : ℕ) (pos : ℚ × ℚ) : List ℕ :=
  ((scanCells gw gh cellSize pos).flatMap (fun c => grid.getD c.toNat [])).filter
    (fun j => j ≠ i)

/-- The brute-force neighbor set the specification describes (spec §8,
"Neighbor-index equivalence"): all other particles within `radius_max`
of particle `i` under toroidal distance, here with the strict inequality
that matches the force cutoff.  Stated from the spec for comparison with
`visitedNeighbors`. -/
def bruteForceNeighbors (W H cellSize : ℚ) (ps : List (ℚ × ℚ)) (i : ℕ) :
    List ℕ :=
  (List.range ps.length).filter
    (fun j => j ≠ i ∧ torDistSq W H (ps.getD i (0, 0)) (ps.getD j (0, 0)) < cellSize ^ 2)

/-- The construction-time behaviour of `ParticleSystem.__init__`
(`src/particle.py` lines 35-70).  The constructor performs no explicit
validation; the only failures are raised by the NumPy calls it makes:
`rng.uniform(..., size=(count, 2))` raises `ValueError` for a negative
`count` ("negative dimensions are not allowed"), and
`rng.integers(low=0, high=particle_types, ...)` raises `ValueError`
("low >= high") whenever `particle_types ≤ 0`, for any size.  A
`count = 0` passes both calls and yields empty arrays. -/
def ParticleSystem_init (particle_count particle_types : ℤ) :
    Except String (ℤ × ℤ) :=
  if particle_count < 0 then .error "negative dimensions are not allowed"
  else if particle_types ≤ 0 then .error "low >= high"
  else .ok (particle_count, particle_types)

/-! ## Supporting lemmas -/

lemma wrapCoord_nonneg_lt (L x : ℚ) (hL : 0 < L) :
    0 ≤ wrapCoord L x ∧ wrapCoord L x < L := by
  unfold wrapCoord
  have h1 : (⌊x / L⌋ : ℚ) ≤ x / L := Int.floor_le _
  have h2 : x / L < ⌊x / L⌋ + 1 := Int.lt_floor_add_one _
  have h4 : L * (x / L) = x := by field_simp
  constructor
  · have h3 : L * (⌊x / L⌋ : ℚ) ≤ L * (x / L) := by
      exact mul_le_mul_of_nonneg_left h1 hL.le
    linarith
  · have h3 : L * (x / L) < L * ((⌊x / L⌋ : ℚ) + 1) := by
      exact mul_lt_mul_of_pos_left h2 hL
    nlinarith

lemma eps_pos : 0 < eps := by norm_num [eps]

lemma scale_div_cancel (r e x : ℚ) (hr : r ≠ 0) : r / e * (x / r) = x / e := by
  rw [div_mul_div_comm, mul_comm r x, mul_div_mul_right x e hr]

/-! ## Claim theorems -/

/-- C3: after every call to `Simulation.step()`, both position components
of every particle lie in `[0, W) × [0, H)`: the final wrap (lines 297-298)
is an exact modulo with nonnegative result, for any input state — hence
the invariant holds after any number of steps from any initial state. -/
theorem step_positions_in_bounds (maxv friction dt threshold W H : ℚ)
    (pos vel force : ℚ × ℚ) (s : ℚ) (hW : 0 < W) (hH : 0 < H) :
    0 ≤ (stepParticle maxv friction dt threshold W H pos vel force s).1.1 ∧
    (stepParticle maxv friction dt threshold W H pos vel force s).1.1 < W ∧
    0 ≤ (stepParticle maxv friction dt threshold W H pos vel force s).1.2 ∧
    (stepParticle maxv friction dt threshold W H pos vel force s).1.2 < H := by
  refine ⟨(wrapCoord_nonneg_lt W _ hW).1, (wrapCoord_nonneg_lt W _ hW).2,
    (wrapCoord_nonneg_lt H _ hH).1, (wrapCoord_nonneg_lt H _ hH).2⟩

theorem step_positions_in_bounds_witness :
    0 ≤ (stepParticle 5 (1/20) (1/10) 0 700 700 (699, 1) (30, -30) (2, 2) 3).1.1 ∧
    (stepParticle 5 (1/20) (1/10) 0 700 700 (699, 1) (30, -30) (2, 2) 3).1.1 < 700 ∧
    0 ≤ (stepParticle 5 (1/20) (1/10) 0 700 700 (699, 1) (30, -30) (2, 2) 3).1.2 ∧
    (stepParticle 5 (1/20) (1/10) 0 700 700 (699, 1) (30, -30) (2, 2) 3).1.2 < 700 :=
  step_positions_in_bounds 5 (1/20) (1/10) 0 700 700 (699, 1) (30, -30) (2, 2) 3
    (by norm_num) (by norm_num)

/-- C4: the pairwise contribution is exactly the zero vector when the
toroidal separation is `0` (coincident particles, no division fault) and
when it is at least `radius_max`: the guard on line 139 admits only
`0 < distance_sq < radius_max ** 2`. -/
theorem force_zero_out_of_range (W H rmin rmax rep matv : ℚ) (a b : ℚ × ℚ)
    (r : ℚ) (hr : 0 ≤ r) (hmax : 0 ≤ rmax)
    (hsq : r ^ 2 = torDistSq W H a b) (h : r = 0 ∨ rmax ≤ r) :
    forceContrib W H rmin rmax rep matv a b r = (0, 0) := by
  have hds : normSq (torDelta W H a b) = r ^ 2 := by
    rw [hsq]; rfl
  rw [forceContrib, if_neg]
  rw [hds]
  rcases h with h0 | hge
  · subst h0
    intro hcon
    simp at hcon
  · intro hcon
    have : rmax ^ 2 ≤ r ^ 2 := pow_le_pow_left₀ hmax hge 2
    exact absurd hcon.2 (not_lt.mpr this)

theorem force_zero_out_of_range_witness :
    forceContrib 700 700 10 50 1 (-1) (3, 4) (3, 4) 0 = (0, 0) ∧
    forceContrib 700 700 10 50 1 (-1) (0, 0) (0, 60) 60 = (0, 0) :=
  ⟨force_zero_out_of_range 700 700 10 50 1 (-1) (3, 4) (3, 4) 0
      le_rfl (by norm_num)
      (by norm_num [torDistSq, torDelta, wrapDelta, normSq]) (Or.inl rfl),
    force_zero_out_of_range 700 700 10 50 1 (-1) (0, 0) (0, 60) 60
      (by norm_num) (by norm_num)
      (by norm_num [torDistSq, torDelta, wrapDelta, normSq]) (Or.inr (by norm_num))⟩

/-- C6: the velocity cap (step 5 of `Simulation.step`) rescales any
velocity whose post-friction speed `s` exceeds `max_velocity` to exactly
`max_velocity` with its direction preserved (a positive scalar multiple),
leaves any velocity with `s ≤ max_velocity` unchanged, and consequently
after the integration phase no particle's speed exceeds `max_velocity`. -/
theorem speed_cap_correct (maxv friction dt threshold W H : ℚ)
    (pos vel force : ℚ × ℚ) (s : ℚ) (hm : 0 < maxv) (hs : 0 ≤ s)
    (hsq : s ^ 2 = normSq (velAfterForces friction dt vel force)) :
    normSq (stepParticle maxv friction dt threshold W H pos vel force s).2 ≤ maxv ^ 2 ∧
    (maxv < s →
      capVelocity maxv (velAfterForces friction dt vel force) s
          = ((maxv / s) * (velAfterForces friction dt vel force).1,
             (maxv / s) * (velAfterForces friction dt vel force).2) ∧
        0 < maxv / s ∧
        normSq (capVelocity maxv (velAfterForces friction dt vel force) s) = maxv ^ 2) ∧
    (s ≤ maxv →
      capVelocity maxv (velAfterForces friction dt vel force) s
          = velAfterForces friction dt vel force) := by
  set v2 := velAfterForces friction dt vel force with hv2
  have hn : v2.1 ^ 2 + v2.2 ^ 2 = s ^ 2 := by
    rw [hsq]; rfl
  have hcap_hi : maxv < s →
      capVelocity maxv v2 s = ((maxv / s) * v2.1, (maxv / s) * v2.2) ∧
      0 < maxv / s ∧ normSq (capVelocity maxv v2 s) = maxv ^ 2 := by
    intro h
    have hspos : 0 < s := hm.trans h
    have hsne : s ≠ 0 := hspos.ne'
    have hcap : capVelocity maxv v2 s = ((maxv / s) * v2.1, (maxv / s) * v2.2) := by
      rw [capVelocity, if_pos h]
      simp only [Prod.mk.injEq]
      constructor <;> ring
    refine ⟨hcap, div_pos hm hspos, ?_⟩
    rw [hcap]
    show ((maxv / s) * v2.1) ^ 2 + ((maxv / s) * v2.2) ^ 2 = maxv ^ 2
    have hexp : ((maxv / s) * v2.1) ^ 2 + ((maxv / s) * v2.2) ^ 2
        = (maxv / s) ^ 2 * (v2.1 ^ 2 + v2.2 ^ 2) := by ring
    rw [hexp, hn]
    field_simp
  have hcap_lo : s ≤ maxv → capVelocity maxv v2 s = v2 := by
    intro h
    rw [capVelocity, if_neg (not_lt.mpr h)]
  refine ⟨?_, hcap_hi, hcap_lo⟩
  have hvel : (stepParticle maxv friction dt threshold W H pos vel force s).2
      = if 0 < threshold ∧ (if maxv < s then maxv else s) < threshold
        then ((0 : ℚ), (0 : ℚ)) else capVelocity maxv v2 s := rfl
  rw [hvel]
  by_cases hth : 0 < threshold ∧ (if maxv < s then maxv else s) < threshold
  · rw [if_pos hth]
    show (0 : ℚ) ^ 2 + (0 : ℚ) ^ 2 ≤ maxv ^ 2
    nlinarith [sq_nonneg maxv]
  · rw [if_neg hth]
    rcases lt_or_le maxv s with h | h
    · exact le_of_eq (hcap_hi h).2.2
    · rw [hcap_lo h]
      have hnorm : normSq v2 = s ^ 2 := by rw [hsq]
      rw [hnorm]
      exact pow_le_pow_left₀ hs h 2

theorem speed_cap_correct_witness :
    normSq (stepParticle 5 0 1 0 700 700 (0, 0) (0, 0) (30, 40) 50).2 ≤ 5 ^ 2 ∧
    (5 < (50 : ℚ) →
      capVelocity 5 (velAfterForces 0 1 (0, 0) (30, 40)) 50
          = ((5 / 50) * (velAfterForces 0 1 (0, 0) (30, 40)).1,
             (5 / 50) * (velAfterForces 0 1 (0, 0) (30, 40)).2) ∧
        0 < (5 : ℚ) / 50 ∧
        normSq (capVelocity 5 (velAfterForces 0 1 (0, 0) (30, 40)) 50) = 5 ^ 2) ∧
    ((50 : ℚ) ≤ 5 →
      capVelocity 5 (velAfterForces 0 1 (0, 0) (30, 40)) 50
          = velAfterForces 0 1 (0, 0) (30, 40)) :=
  speed_cap_correct 5 0 1 0 700 700 (0, 0) (0, 0) (30, 40) 50 (by norm_num)
    (by norm_num) (by norm_num [velAfterForces, normSq])

/-- C10: with `velocity_damping_threshold > 0`, every particle ends the
step with either the exact zero velocity or a speed in
`[velocity_damping_threshold, max_velocity]`: the stiction pass (lines
284-288) re-reads the post-cap speed (capped particles count as moving at
exactly `max_velocity`, line 286) and zeroes every velocity strictly below
the threshold. -/
theorem stiction_speed_invariant (maxv friction dt threshold W H : ℚ)
    (pos vel force : ℚ × ℚ) (s : ℚ) (ht : 0 < threshold) (hm : 0 < maxv)
    (hs : 0 ≤ s)
    (hsq : s ^ 2 = normSq (velAfterForces friction dt vel force)) :
    (stepParticle maxv friction dt threshold W H pos vel force s).2 = (0, 0) ∨
    (threshold ^ 2 ≤ normSq (stepParticle maxv friction dt threshold W H pos vel force s).2 ∧
      normSq (stepParticle maxv friction dt threshold W H pos vel force s).2 ≤ maxv ^ 2) := by
  set v2 := velAfterForces friction dt vel force with hv2
  have hnorm : normSq v2 = s ^ 2 := by rw [hsq]
  have hvel : (stepParticle maxv friction dt threshold W H pos vel force s).2
      = if 0 < threshold ∧ (if maxv < s then maxv else s) < threshold
        then ((0 : ℚ), (0 : ℚ)) else capVelocity maxv v2 s := rfl
  rw [hvel]
  by_cases hcond : 0 < threshold ∧ (if maxv < s then maxv else s) < threshold
  · rw [if_pos hcond]
    exact Or.inl rfl
  · rw [if_neg hcond]
    have hs3 : ¬ (if maxv < s then maxv else s) < threshold := by
      intro hlt
      exact hcond ⟨ht, hlt⟩
    right
    rcases lt_or_le maxv s with h | h
    · rw [if_pos h] at hs3
      have hspos : 0 < s := hm.trans h
      have hsne : s ≠ 0 := hspos.ne'
      have hcap : normSq (capVelocity maxv v2 s) = maxv ^ 2 := by
        rw [capVelocity, if_pos h]
        show ((v2.1 / s) * maxv) ^ 2 + ((v2.2 / s) * maxv) ^ 2 = maxv ^ 2
        have hexp : ((v2.1 / s) * maxv) ^ 2 + ((v2.2 / s) * maxv) ^ 2
            = (maxv / s) ^ 2 * (v2.1 ^ 2 + v2.2 ^ 2) := by ring
        have hn : v2.1 ^ 2 + v2.2 ^ 2 = s ^ 2 := hnorm
        rw [hexp, hn]
        field_simp
      rw [hcap]
      have hth : threshold ≤ maxv := not_lt.mp hs3
      exact ⟨pow_le_pow_left₀ ht.le hth 2, le_refl _⟩
    · rw [if_neg (not_lt.mpr h)] at hs3
      rw [capVelocity, if_neg (not_lt.mpr h), hnorm]
      have hth : threshold ≤ s := not_lt.mp hs3
      exact ⟨pow_le_pow_left₀ ht.le hth 2, pow_le_pow_left₀ hs h 2⟩

theorem stiction_speed_invariant_witness :
    (stepParticle 5 0 1 (1/2) 700 700 (0, 0) (0, 0) (3/25, 4/25) (1/5)).2 = (0, 0) ∨
    (((1:ℚ)/2) ^ 2 ≤ normSq (stepParticle 5 0 1 (1/2) 700 700 (0, 0) (0, 0) (3/25, 4/25) (1/5)).2 ∧
      normSq (stepParticle 5 0 1 (1/2) 700 700 (0, 0) (0, 0) (3/25, 4/25) (1/5)).2 ≤ 5 ^ 2) :=
  stiction_speed_invariant 5 0 1 (1/2) 700 700 (0, 0) (0, 0) (3/25, 4/25) (1/5)
    (by norm_num) (by norm_num) (by norm_num) (by norm_num [velAfterForces, normSq])

/-- C2 counterexample: at separation `r = 30 = ideal` with
`radius_min = 10`, `radius_max = 50` and `matrix[a][b] = 1`, the code's
contribution is NOT the spec's `d/r`-directed triangular-profile force:
the `1e-9` padding of the normalisation denominator (line 142) scales it
by `r / (r + 1e-9)`, so the peak magnitude is `30/(30 + 1e-9)`, not `1`. -/
theorem interaction_force_epsilon_counterexample :
    (10 : ℚ) ≤ 30 ∧ (30 : ℚ) < 50 ∧
    ((30 : ℚ) ^ 2 = torDistSq 1000 1000 (0, 0) (30, 0)) ∧
    forceContrib 1000 1000 10 50 1 1 (0, 0) (30, 0) 30 ≠
      specInteractionForce 10 50 1 (torDelta 1000 1000 (0, 0) (30, 0)) 30 := by
  refine ⟨by norm_num, by norm_num, ?_, ?_⟩
  · norm_num [torDistSq, torDelta, wrapDelta, normSq]
  · norm_num [forceContrib, specInteractionForce, torDelta, wrapDelta, normSq, eps,
      Prod.ext_iff]

/-- C2 amended: in the long-range regime `radius_min ≤ r < radius_max`
the contribution equals the spec's triangular-profile force scaled by the
factor `r / (r + 1e-9)` introduced by the epsilon-padded normalisation;
in particular a nonnegative matrix value still yields a nonnegative
multiple of `d` (attraction toward the neighbor). -/
theorem interaction_force_amended (W H rmin rmax rep matv : ℚ) (a b : ℚ × ℚ)
    (r : ℚ) (hrmin : 0 < rmin) (hrr : rmin < rmax) (hr : 0 ≤ r)
    (hsq : r ^ 2 = torDistSq W H a b) (hlo : rmin ≤ r) (hhi : r < rmax) :
    (forceContrib W H rmin rmax rep matv a b r
        = ((r / (r + eps)) * (specInteractionForce rmin rmax matv (torDelta W H a b) r).1,
           (r / (r + eps)) * (specInteractionForce rmin rmax matv (torDelta W H a b) r).2)) ∧
    (0 ≤ matv → ∃ c : ℚ, 0 ≤ c ∧
      forceContrib W H rmin rmax rep matv a b r
        = (c * (torDelta W H a b).1, c * (torDelta W H a b).2)) := by
  have hr0 : 0 < r := hrmin.trans_le hlo
  have hrne : r ≠ 0 := hr0.ne'
  have hre : 0 < r + eps := by
    have := eps_pos
    linarith
  have hrene : r + eps ≠ 0 := hre.ne'
  have hds : normSq (torDelta W H a b) = r ^ 2 := by rw [hsq]; rfl
  have hcond : 0 < normSq (torDelta W H a b) ∧ normSq (torDelta W H a b) < rmax ^ 2 := by
    rw [hds]
    exact ⟨pow_pos hr0 2, pow_lt_pow_left₀ hhi hr (by norm_num)⟩
  have hnotmin : ¬ normSq (torDelta W H a b) < rmin ^ 2 := by
    rw [hds]
    exact not_lt.mpr (pow_le_pow_left₀ hrmin.le hlo 2)
  have hup : rmin < (rmin + rmax) / 2 := by linarith
  have hdown : (rmin + rmax) / 2 < rmax := by linarith
  have hdownne : rmax - (rmin + rmax) / 2 ≠ 0 := by
    have hpos : 0 < rmax - (rmin + rmax) / 2 := by linarith
    exact hpos.ne'
  have key : ∀ x m : ℚ, r / (r + eps) * (x / r * m) = x / (r + eps) * m := by
    intro x m
    rw [show r / (r + eps) * (x / r * m) = r / (r + eps) * (x / r) * m from by ring,
      scale_div_cancel r (r + eps) x hrne]
  have hmagr : matv * (1 - (r - (rmin + rmax) / 2) / (rmax - (rmin + rmax) / 2))
      = matv * ((rmax - r) / (rmax - (rmin + rmax) / 2)) := by
    rw [one_sub_div hdownne]
    ring
  have hmain : forceContrib W H rmin rmax rep matv a b r
      = ((r / (r + eps)) * (specInteractionForce rmin rmax matv (torDelta W H a b) r).1,
         (r / (r + eps)) * (specInteractionForce rmin rmax matv (torDelta W H a b) r).2) := by
    rw [forceContrib, specInteractionForce]
    simp only
    rw [if_pos hcond, if_neg hnotmin]
    by_cases hmid : r < (rmin + rmax) / 2
    · rw [if_pos hmid, if_pos hmid]
      simp only [key, Prod.mk.injEq]
      constructor <;> ring
    · rw [if_neg hmid, if_neg hmid]
      simp only [key, Prod.mk.injEq, hmagr]
  refine ⟨hmain, fun hmatv => ?_⟩
  set mag : ℚ := if r < (rmin + rmax) / 2
      then matv * ((r - rmin) / ((rmin + rmax) / 2 - rmin))
      else matv * ((rmax - r) / (rmax - (rmin + rmax) / 2)) with hmag
  have hspec : specInteractionForce rmin rmax matv (torDelta W H a b) r
      = ((torDelta W H a b).1 / r * mag, (torDelta W H a b).2 / r * mag) := rfl
  have hmagpos : 0 ≤ mag := by
    rw [hmag]
    by_cases hmid : r < (rmin + rmax) / 2
    · rw [if_pos hmid]
      apply mul_nonneg hmatv
      apply div_nonneg (by linarith) (by linarith)
    · rw [if_neg hmid]
      apply mul_nonneg hmatv
      apply div_nonneg (by linarith) (by linarith)
  refine ⟨mag / (r + eps), div_nonneg hmagpos hre.le, ?_⟩
  rw [hmain, hspec]
  simp only [key, Prod.mk.injEq]
  constructor <;> · rw [div_mul_eq_mul_div, div_mul_eq_mul_div]; ring

theorem interaction_force_amended_witness :
    (forceContrib 1000 1000 10 50 1 1 (0, 0) (40, 0) 40
        = (((40 : ℚ) / (40 + eps)) * (specInteractionForce 10 50 1 (torDelta 1000 1000 (0, 0) (40, 0)) 40).1,
           ((40 : ℚ) / (40 + eps)) * (specInteractionForce 10 50 1 (torDelta 1000 1000 (0, 0) (40, 0)) 40).2)) ∧
    ((0 : ℚ) ≤ 1 → ∃ c : ℚ, 0 ≤ c ∧
      forceContrib 1000 1000 10 50 1 1 (0, 0) (40, 0) 40
        = (c * (torDelta 1000 1000 (0, 0) (40, 0)).1, c * (torDelta 1000 1000 (0, 0) (40, 0)).2)) :=
  interaction_force_amended 1000 1000 10 50 1 1 (0, 0) (40, 0) 40 (by norm_num)
    (by norm_num) (by norm_num)
    (by norm_num [torDistSq, torDelta, wrapDelta, normSq]) (by norm_num) (by norm_num)

/-- C5 counterexample: at separation `r = 5` with `radius_min = 10` and
`repulsion_strength = 1`, the code's contribution is NOT the spec's
`-(d/r) * repulsion_strength * (1 - r/radius_min)`: the epsilon-padded
normalisation (line 142) scales the magnitude by `r / (r + 1e-9)`. -/
theorem repulsion_force_epsilon_counterexample :
    (0 : ℚ) < 5 ∧ (5 : ℚ) < 10 ∧
    ((5 : ℚ) ^ 2 = torDistSq 1000 1000 (0, 0) (5, 0)) ∧
    forceContrib 1000 1000 10 50 1 1 (0, 0) (5, 0) 5 ≠
      specRepulsionForce 10 1 (torDelta 1000 1000 (0, 0) (5, 0)) 5 := by
  refine ⟨by norm_num, by norm_num, ?_, ?_⟩
  · norm_num [torDistSq, torDelta, wrapDelta, normSq]
  · norm_num [forceContrib, specRepulsionForce, torDelta, wrapDelta, normSq, eps,
      Prod.ext_iff]

/-- C5 amended: in the short-range regime `0 < r < radius_min` the
contribution equals the spec's pure-repulsion force scaled by the factor
`r / (r + 1e-9)` introduced by the epsilon-padded normalisation; it does
not depend on the pair's types or on the interaction matrix (the matrix
entry `matv` does not occur on the right-hand side). -/
theorem repulsion_force_amended (W H rmin rmax rep matv : ℚ) (a b : ℚ × ℚ)
    (r : ℚ) (h0 : 0 < r) (hup : r < rmin) (hrr : rmin < rmax)
    (hsq : r ^ 2 = torDistSq W H a b) :
    forceContrib W H rmin rmax rep matv a b r
      = ((r / (r + eps)) * (specRepulsionForce rmin rep (torDelta W H a b) r).1,
         (r / (r + eps)) * (specRepulsionForce rmin rep (torDelta W H a b) r).2) := by
  have hrne : r ≠ 0 := h0.ne'
  have hre : 0 < r + eps := by
    have := eps_pos
    linarith
  have hrene : r + eps ≠ 0 := hre.ne'
  have hds : normSq (torDelta W H a b) = r ^ 2 := by rw [hsq]; rfl
  have hcond : 0 < normSq (torDelta W H a b) ∧ normSq (torDelta W H a b) < rmax ^ 2 := by
    rw [hds]
    exact ⟨pow_pos h0 2, pow_lt_pow_left₀ (hup.trans hrr) h0.le (by norm_num)⟩
  have hmin : normSq (torDelta W H a b) < rmin ^ 2 := by
    rw [hds]
    exact pow_lt_pow_left₀ hup h0.le (by norm_num)
  have key : ∀ x m : ℚ, r / (r + eps) * (-(x / r) * m) = -(x / (r + eps)) * m := by
    intro x m
    rw [show r / (r + eps) * (-(x / r) * m) = -(r / (r + eps) * (x / r)) * m from by ring,
      scale_div_cancel r (r + eps) x hrne]
  rw [forceContrib, specRepulsionForce]
  simp only
  rw [if_pos hcond, if_pos hmin]
  simp only [Prod.mk.injEq]
  rw [show r / (r + eps) * (-((torDelta W H a b).1 / r) * rep * (1 - r / rmin))
      = r / (r + eps) * (-((torDelta W H a b).1 / r) * (rep * (1 - r / rmin))) from by ring,
    show r / (r + eps) * (-((torDelta W H a b).2 / r) * rep * (1 - r / rmin))
      = r / (r + eps) * (-((torDelta W H a b).2 / r) * (rep * (1 - r / rmin))) from by ring,
    key, key]
  constructor <;> ring

theorem repulsion_force_amended_witness :
    forceContrib 1000 1000 10 50 1 1 (0, 0) (5, 0) 5
      = (((5 : ℚ) / (5 + eps)) * (specRepulsionForce 10 1 (torDelta 1000 1000 (0, 0) (5, 0)) 5).1,
         ((5 : ℚ) / (5 + eps)) * (specRepulsionForce 10 1 (torDelta 1000 1000 (0, 0) (5, 0)) 5).2) :=
  repulsion_force_amended 1000 1000 10 50 1 1 (0, 0) (5, 0) 5 (by norm_num)
    (by norm_num) (by norm_num) (by norm_num [torDistSq, torDelta, wrapDelta, normSq])

/-- C7 (code-bug evidence): constructing the engine with
`radius_min = 50 ≥ radius_max = 30` and an otherwise valid configuration
SUCCEEDS — `Simulation.__init__` performs no comparison between the radii
(its only check, lines 217-227, is the matrix shape), contrary to spec §7
which requires `radius_min ≥ radius_max` to be fatal at construction. -/
theorem init_accepts_inverted_radii :
    (Simulation_init 3 3 3 50 30 700 700).isOk = true ∧ (30 : ℚ) < 50 :=
  ⟨rfl, by norm_num⟩

/-- C8: construction fails exactly when the interaction matrix's shape is
not `typeCount × typeCount` (lines 217-227 of `src/simulation.py`), and
the check happens at construction time by construction of the model. -/
theorem matrix_shape_validation (T rows cols : ℕ) (rmin rmax W H : ℚ) :
    (Simulation_init T rows cols rmin rmax W H).isOk = true ↔ rows = T ∧ cols = T := by
  rw [Simulation_init]
  by_cases h : (rows, cols) ≠ (T, T)
  · rw [if_pos h]
    simp only [Except.isOk, Except.toBool]
    constructor
    · intro hfalse
      cases hfalse
    · intro hshape
      exact absurd (by rw [hshape.1, hshape.2]) h
  · rw [if_neg h]
    simp only [Except.isOk, Except.toBool, true_iff]
    have heq : (rows, cols) = (T, T) := not_not.mp h
    exact ⟨congrArg Prod.fst heq, congrArg Prod.snd heq⟩

/-- C9 (code-bug evidence): initializing the particle store with
`particle_count = 0` (and a valid `particle_types = 3`) silently succeeds:
`ParticleSystem.__init__` performs no validation of its own, and the NumPy
calls it makes accept a zero count (only a negative count or a
non-positive type count makes them raise), contrary to spec §4.1 which
requires failure for `count ≤ 0`. -/
theorem particle_init_accepts_zero_count :
    ParticleSystem_init 0 3 = .ok (0, 3) ∧ ParticleSystem_init (-1) 3 = .error "negative dimensions are not allowed" ∧
    ParticleSystem_init 100 0 = .error "low >= high" :=
  ⟨rfl, rfl, rfl⟩

/-! ## Spatial-grid membership lemmas (towards C1) -/

lemma getD_set (l : List (List ℕ)) (i k : ℕ) (x : List ℕ) :
    (l.set i x).getD k [] = if i = k ∧ i < l.length then x else l.getD k [] := by
  rw [List.getD_eq_getElem?_getD, List.getD_eq_getElem?_getD, List.getElem?_set]
  by_cases h : i = k
  · subst h
    by_cases hl : i < l.length
    · simp [hl]
    · have hnone : l[i]? = none := List.getElem?_eq_none (le_of_not_lt hl)
      simp [hl, hnone]
  · simp [h]

lemma gridAppend_def (g : List (List ℕ)) (flat : ℤ) (j : ℕ) :
    gridAppend g flat j
      = g.set (pyIdx g.length flat) (g.getD (pyIdx g.length flat) [] ++ [j]) := rfl

lemma length_gridAppend (g : List (List ℕ)) (flat : ℤ) (j : ℕ) :
    (gridAppend g flat j).length = g.length := by
  rw [gridAppend_def]
  exact List.length_set ..

lemma mem_getD_gridAppend (g : List (List ℕ)) (flat : ℤ) (j m k : ℕ)
    (hm : m ∈ g.getD k []) : m ∈ (gridAppend g flat j).getD k [] := by
  rw [gridAppend_def, getD_set]
  split
  · rename_i h
    rw [← h.1] at hm
    exact List.mem_append_left _ hm
  · exact hm

lemma self_mem_gridAppend (g : List (List ℕ)) (flat : ℤ) (j : ℕ)
    (hk : pyIdx g.length flat < g.length) :
    j ∈ (gridAppend g flat j).getD (pyIdx g.length flat) [] := by
  rw [gridAppend_def, getD_set, if_pos ⟨rfl, hk⟩]
  exact List.mem_append_right _ (List.mem_singleton.mpr rfl)

lemma length_foldl_gridAppend (l : List ℤ) (g : List (List ℕ)) (j : ℕ) :
    (l.foldl (fun gg flat => gridAppend gg flat j) g).length = g.length := by
  induction l generalizing g with
  | nil => rfl
  | cons a t ih => rw [List.foldl_cons, ih, length_gridAppend]

lemma mem_foldl_gridAppend (l : List ℤ) (g : List (List ℕ)) (j m k : ℕ)
    (hm : m ∈ g.getD k []) :
    m ∈ (l.foldl (fun gg flat => gridAppend gg flat j) g).getD k [] := by
  induction l generalizing g with
  | nil => exact hm
  | cons a t ih => exact ih _ (mem_getD_gridAppend g a j m k hm)

lemma self_mem_foldl_gridAppend (l : List ℤ) (g : List (List ℕ)) (j : ℕ) (flat : ℤ)
    (hf : flat ∈ l) (hk : pyIdx g.length flat < g.length) :
    j ∈ (l.foldl (fun gg f => gridAppend gg f j) g).getD (pyIdx g.length flat) [] := by
  induction l generalizing g with
  | nil => cases hf
  | cons a t ih =>
    rw [List.foldl_cons]
    rcases List.mem_cons.mp hf with heq | hmem
    · subst heq
      exact mem_foldl_gridAppend t _ j j _ (self_mem_gridAppend g flat j hk)
    · have hlen := length_gridAppend g a j
      have hres := ih (gridAppend g a j) hmem (by rw [hlen]; exact hk)
      rwa [hlen] at hres

lemma insertParticle_def (gw gh : ℕ) (c W H : ℚ) (g : List (List ℕ)) (j : ℕ)
    (pos : ℚ × ℚ) :
    insertParticle gw gh c W H g j pos
      = (ghostCells gw gh c W H pos).foldl (fun gg flat => gridAppend gg flat j) g := rfl

lemma length_insertParticle (gw gh : ℕ) (c W H : ℚ) (g : List (List ℕ)) (j : ℕ)
    (pos : ℚ × ℚ) : (insertParticle gw gh c W H g j pos).length = g.length := by
  rw [insertParticle_def]
  exact length_foldl_gridAppend ..

lemma mem_insertParticle (gw gh : ℕ) (c W H : ℚ) (g : List (List ℕ)) (j : ℕ)
    (pos : ℚ × ℚ) (m k : ℕ) (hm : m ∈ g.getD k []) :
    m ∈ (insertParticle gw gh c W H g j pos).getD k [] := by
  rw [insertParticle_def]
  exact mem_foldl_gridAppend _ _ _ _ _ hm

lemma self_mem_insertParticle (gw gh : ℕ) (c W H : ℚ) (g : List (List ℕ)) (j : ℕ)
    (pos : ℚ × ℚ) (flat : ℤ) (hf : flat ∈ ghostCells gw gh c W H pos)
    (hk : pyIdx g.length flat < g.length) :
    j ∈ (insertParticle gw gh c W H g j pos).getD (pyIdx g.length flat) [] := by
  rw [insertParticle_def]
  exact self_mem_foldl_gridAppend _ _ _ _ hf hk

lemma length_foldl_insert (gw gh : ℕ) (c W H : ℚ) (ps : List (ℚ × ℚ))
    (idxs : List ℕ) (g : List (List ℕ)) :
    (idxs.foldl (fun gg i => insertParticle gw gh c W H gg i (ps.getD i (0, 0))) g).length
      = g.length := by
  induction idxs generalizing g with
  | nil => rfl
  | cons a t ih => rw [List.foldl_cons, ih, length_insertParticle]

lemma mem_foldl_insert (gw gh : ℕ) (c W H : ℚ) (ps : List (ℚ × ℚ))
    (idxs : List ℕ) (g : List (List ℕ)) (m k : ℕ) (hm : m ∈ g.getD k []) :
    m ∈ (idxs.foldl (fun gg i => insertParticle gw gh c W H gg i (ps.getD i (0, 0))) g).getD
      k [] := by
  induction idxs generalizing g with
  | nil => exact hm
  | cons a t ih => exact ih _ (mem_insertParticle gw gh c W H g a _ m k hm)

lemma self_mem_foldl_insert (gw gh : ℕ) (c W H : ℚ) (ps : List (ℚ × ℚ))
    (idxs : List ℕ) (g : List (List ℕ)) (j : ℕ) (flat : ℤ) (hj : j ∈ idxs)
    (hf : flat ∈ ghostCells gw gh c W H (ps.getD j (0, 0)))
    (hk : pyIdx g.length flat < g.length) :
    j ∈ (idxs.foldl (fun gg i => insertParticle gw gh c W H gg i (ps.getD i (0, 0))) g).getD
      (pyIdx g.length flat) [] := by
  induction idxs generalizing g with
  | nil => cases hj
  | cons a t ih =>
    rw [List.foldl_cons]
    rcases List.mem_cons.mp hj with heq | hmem
    · subst heq
      exact mem_foldl_insert gw gh c W H ps t _ j _
        (self_mem_insertParticle gw gh c W H g j _ flat hf hk)
    · have hlen := length_insertParticle gw gh c W H g a (ps.getD a (0, 0))
      have hres := ih (insertParticle gw gh c W H g a (ps.getD a (0, 0))) hmem
        (by rw [hlen]; exact hk)
      rwa [hlen] at hres

lemma pyIdx_of_nonneg (len : ℕ) (flat : ℤ) (h : 0 ≤ flat) :
    pyIdx len flat = flat.toNat := by
  unfold pyIdx
  rw [if_neg (not_lt.mpr h)]

lemma mem_updateGrid (gw gh : ℕ) (c W H : ℚ) (ps : List (ℚ × ℚ)) (j : ℕ)
    (flat : ℤ) (hj : j < ps.length)
    (hf : flat ∈ ghostCells gw gh c W H (ps.getD j (0, 0)))
    (hflat0 : 0 ≤ flat) (hflatlt : flat < (gw * gh : ℕ)) :
    j ∈ (updateGrid gw gh c W H ps).getD flat.toNat [] := by
  have hlenrep : (List.replicate (gw * gh) ([] : List ℕ)).length = gw * gh :=
    List.length_replicate ..
  have hk : pyIdx (List.replicate (gw * gh) ([] : List ℕ)).length flat
      < (List.replicate (gw * gh) ([] : List ℕ)).length := by
    rw [hlenrep, pyIdx_of_nonneg _ _ hflat0]
    omega
  have hres := self_mem_foldl_insert gw gh c W H ps (List.range ps.length)
    (List.replicate (gw * gh) []) j flat (List.mem_range.mpr hj) hf hk
  rw [hlenrep, pyIdx_of_nonneg _ _ hflat0] at hres
  exact hres

/-! ## Scan and floor lemmas (towards C1) -/

lemma mem_scanCells (gw gh : ℕ) (c : ℚ) (pos : ℚ × ℚ) (tx ty : ℤ)
    (hx1 : ⌊pos.1 / c⌋ - 1 ≤ tx) (hx2 : tx ≤ ⌊pos.1 / c⌋ + 1)
    (hy1 : ⌊pos.2 / c⌋ - 1 ≤ ty) (hy2 : ty ≤ ⌊pos.2 / c⌋ + 1)
    (hx0 : 0 ≤ tx) (hxg : tx < (gw : ℤ)) (hy0 : 0 ≤ ty) (hyg : ty < (gh : ℤ)) :
    (tx + ty * gw) ∈ scanCells gw gh c pos := by
  unfold scanCells
  simp only [List.mem_flatMap]
  refine ⟨tx - ⌊pos.1 / c⌋, ?_, ty - ⌊pos.2 / c⌋, ?_, ?_⟩
  · have h3 : tx - ⌊pos.1 / c⌋ = -1 ∨ tx - ⌊pos.1 / c⌋ = 0 ∨ tx - ⌊pos.1 / c⌋ = 1 := by
      omega
    rcases h3 with h | h | h <;> simp [h]
  · have h3 : ty - ⌊pos.2 / c⌋ = -1 ∨ ty - ⌊pos.2 / c⌋ = 0 ∨ ty - ⌊pos.2 / c⌋ = 1 := by
      omega
    rcases h3 with h | h | h <;> simp [h]
  · have hnx : ⌊pos.1 / c⌋ + (tx - ⌊pos.1 / c⌋) = tx := by ring
    have hny : ⌊pos.2 / c⌋ + (ty - ⌊pos.2 / c⌋) = ty := by ring
    rw [hnx, hny, if_pos ⟨hx0, hxg, hy0, hyg⟩]
    exact List.mem_singleton.mpr rfl

lemma mem_visitedNeighbors (grid : List (List ℕ)) (gw gh : ℕ) (c : ℚ) (i : ℕ)
    (pos : ℚ × ℚ) (j : ℕ) (cIdx : ℤ) (hne : j ≠ i)
    (hcell : cIdx ∈ scanCells gw gh c pos) (hj : j ∈ grid.getD cIdx.toNat []) :
    j ∈ visitedNeighbors grid gw gh c i pos := by
  unfold visitedNeighbors
  rw [List.mem_filter]
  refine ⟨List.mem_flatMap.mpr ⟨cIdx, hcell, hj⟩, ?_⟩
  simp [hne]

lemma floor_nonneg_lt (c x : ℚ) (n : ℕ) (hc : 0 < c) (h0 : 0 ≤ x)
    (hn : x < n * c) : 0 ≤ ⌊x / c⌋ ∧ ⌊x / c⌋ < (n : ℤ) := by
  constructor
  · exact Int.floor_nonneg.mpr (div_nonneg h0 hc.le)
  · rw [Int.floor_lt]
    push_cast
    rw [div_lt_iff₀ hc]
    exact hn

lemma floor_between (c x : ℚ) (m : ℤ) (hc : 0 < c) (hlo : (m : ℚ) * c ≤ x)
    (hhi : x < ((m : ℚ) + 1) * c) : ⌊x / c⌋ = m := by
  rw [Int.floor_eq_iff]
  constructor
  · rw [le_div_iff₀ hc]
    exact hlo
  · rw [div_lt_iff₀ hc]
    linarith

lemma floor_within_one (c xa xb : ℚ) (hc : 0 < c) (h : |xa - xb| < c) :
    ⌊xb / c⌋ - 1 ≤ ⌊xa / c⌋ ∧ ⌊xa / c⌋ ≤ ⌊xb / c⌋ + 1 := by
  rw [abs_lt] at h
  constructor
  · have h1 : (xb - xa) / c ≤ 1 := (div_le_one hc).mpr (by linarith)
    rw [sub_div] at h1
    have h2 : xb / c ≤ xa / c + 1 := by linarith
    have h3 : ⌊xb / c⌋ ≤ ⌊xa / c⌋ + 1 := by
      calc ⌊xb / c⌋ ≤ ⌊xa / c + 1⌋ := Int.floor_le_floor h2
        _ = ⌊xa / c⌋ + 1 := Int.floor_add_one _
    omega
  · have h1 : (xa - xb) / c ≤ 1 := (div_le_one hc).mpr (by linarith)
    rw [sub_div] at h1
    have h2 : xa / c ≤ xb / c + 1 := by linarith
    calc ⌊xa / c⌋ ≤ ⌊xb / c + 1⌋ := Int.floor_le_floor h2
      _ = ⌊xb / c⌋ + 1 := Int.floor_add_one _

/-! ## Ghost-cell membership lemmas (towards C1) -/

lemma ghostCells_def (gw gh : ℕ) (c W H : ℚ) (pos : ℚ × ℚ) :
    ghostCells gw gh c W H pos
      = [⌊pos.1 / c⌋ + ⌊pos.2 / c⌋ * gw]
        ++ (if pos.1 > W - c then [(⌊pos.1 / c⌋ - gw + 1) + ⌊pos.2 / c⌋ * gw] else [])
        ++ (if pos.1 < c then [(⌊pos.1 / c⌋ + gw - 1) + ⌊pos.2 / c⌋ * gw] else [])
        ++ (if pos.2 > H - c then [⌊pos.1 / c⌋ + (⌊pos.2 / c⌋ - gh + 1) * gw] else [])
        ++ (if pos.2 < c then [⌊pos.1 / c⌋ + (⌊pos.2 / c⌋ + gh - 1) * gw] else [])
        ++ (if pos.1 > W - c ∧ pos.2 > H - c
            then [(⌊pos.1 / c⌋ - gw + 1) + (⌊pos.2 / c⌋ - gh + 1) * gw] else [])
        ++ (if pos.1 < c ∧ pos.2 > H - c
            then [(⌊pos.1 / c⌋ + gw - 1) + (⌊pos.2 / c⌋ - gh + 1) * gw] else [])
        ++ (if pos.1 > W - c ∧ pos.2 < c
            then [(⌊pos.1 / c⌋ - gw + 1) + (⌊pos.2 / c⌋ + gh - 1) * gw] else [])
        ++ (if pos.1 < c ∧ pos.2 < c
            then [(⌊pos.1 / c⌋ + gw - 1) + (⌊pos.2 / c⌋ + gh - 1) * gw] else []) := rfl

lemma mem_ghostCells_primary (gw gh : ℕ) (c W H : ℚ) (pos : ℚ × ℚ) :
    (⌊pos.1 / c⌋ + ⌊pos.2 / c⌋ * gw) ∈ ghostCells gw gh c W H pos := by
  rw [ghostCells_def]
  apply List.mem_append_left
  apply List.mem_append_left
  apply List.mem_append_left
  apply List.mem_append_left
  apply List.mem_append_left
  apply List.mem_append_left
  apply List.mem_append_left
  apply List.mem_append_left
  exact List.mem_singleton.mpr rfl

lemma mem_ghostCells_nr (gw gh : ℕ) (c W H : ℚ) (pos : ℚ × ℚ)
    (hnr : pos.1 > W - c) :
    ((⌊pos.1 / c⌋ - gw + 1) + ⌊pos.2 / c⌋ * gw) ∈ ghostCells gw gh c W H pos := by
  rw [ghostCells_def]
  apply List.mem_append_left
  apply List.mem_append_left
  apply List.mem_append_left
  apply List.mem_append_left
  apply List.mem_append_left
  apply List.mem_append_left
  apply List.mem_append_left
  apply List.mem_append_right
  rw [if_pos hnr]
  exact List.mem_singleton.mpr rfl

lemma mem_ghostCells_nl (gw gh : ℕ) (c W H : ℚ) (pos : ℚ × ℚ)
    (hnl : pos.1 < c) :
    ((⌊pos.1 / c⌋ + gw - 1) + ⌊pos.2 / c⌋ * gw) ∈ ghostCells gw gh c W H pos := by
  rw [ghostCells_def]
  apply List.mem_append_left
  apply List.mem_append_left
  apply List.mem_append_left
  apply List.mem_append_left
  apply List.mem_append_left
  apply List.mem_append_left
  apply List.mem_append_right
  rw [if_pos hnl]
  exact List.mem_singleton.mpr rfl

lemma mem_ghostCells_nb (gw gh : ℕ) (c W H : ℚ) (pos : ℚ × ℚ)
    (hnb : pos.2 > H - c) :
    (⌊pos.1 / c⌋ + (⌊pos.2 / c⌋ - gh + 1) * gw) ∈ ghostCells gw gh c W H pos := by
  rw [ghostCells_def]
  apply List.mem_append_left
  apply List.mem_append_left
  apply List.mem_append_left
  apply List.mem_append_left
  apply List.mem_append_left
  apply List.mem_append_right
  rw [if_pos hnb]
  exact List.mem_singleton.mpr rfl

lemma mem_ghostCells_nt (gw gh : ℕ) (c W H : ℚ) (pos : ℚ × ℚ)
    (hnt : pos.2 < c) :
    (⌊pos.1 / c⌋ + (⌊pos.2 / c⌋ + gh - 1) * gw) ∈ ghostCells gw gh c W H pos := by
  rw [ghostCells_def]
  apply List.mem_append_left
  apply List.mem_append_left
  apply List.mem_append_left
  apply List.mem_append_left
  apply List.mem_append_right
  rw [if_pos hnt]
  exact List.mem_singleton.mpr rfl

lemma mem_ghostCells_nr_nb (gw gh : ℕ) (c W H : ℚ) (pos : ℚ × ℚ)
    (hnr : pos.1 > W - c) (hnb : pos.2 > H - c) :
    ((⌊pos.1 / c⌋ - gw + 1) + (⌊pos.2 / c⌋ - gh + 1) * gw)
      ∈ ghostCells gw gh c W H pos := by
  rw [ghostCells_def]
  apply List.mem_append_left
  apply List.mem_append_left
  apply List.mem_append_left
  apply List.mem_append_right
  rw [if_pos ⟨hnr, hnb⟩]
  exact List.mem_singleton.mpr rfl

lemma mem_ghostCells_nl_nb (gw gh : ℕ) (c W H : ℚ) (pos : ℚ × ℚ)
    (hnl : pos.1 < c) (hnb : pos.2 > H - c) :
    ((⌊pos.1 / c⌋ + gw - 1) + (⌊pos.2 / c⌋ - gh + 1) * gw)
      ∈ ghostCells gw gh c W H pos := by
  rw [ghostCells_def]
  apply List.mem_append_left
  apply List.mem_append_left
  apply List.mem_append_right
  rw [if_pos ⟨hnl, hnb⟩]
  exact List.mem_singleton.mpr rfl

lemma mem_ghostCells_nr_nt (gw gh : ℕ) (c W H : ℚ) (pos : ℚ × ℚ)
    (hnr : pos.1 > W - c) (hnt : pos.2 < c) :
    ((⌊pos.1 / c⌋ - gw + 1) + (⌊pos.2 / c⌋ + gh - 1) * gw)
      ∈ ghostCells gw gh c W H pos := by
  rw [ghostCells_def]
  apply List.mem_append_left
  apply List.mem_append_right
  rw [if_pos ⟨hnr, hnt⟩]
  exact List.mem_singleton.mpr rfl

lemma mem_ghostCells_nl_nt (gw gh : ℕ) (c W H : ℚ) (pos : ℚ × ℚ)
    (hnl : pos.1 < c) (hnt : pos.2 < c) :
    ((⌊pos.1 / c⌋ + gw - 1) + (⌊pos.2 / c⌋ + gh - 1) * gw)
      ∈ ghostCells gw gh c W H pos := by
  rw [ghostCells_def]
  apply List.mem_append_right
  rw [if_pos ⟨hnl, hnt⟩]
  exact List.mem_singleton.mpr rfl

/-! ## Per-coordinate wrap analysis (towards C1) -/

/-- When the world length is an exact multiple `gw * c` of the cell size,
a toroidal per-coordinate separation below `c` between two in-range
coordinates means either (direct) their cells differ by at most one, or
(wrapped) one coordinate lies within `c` of the high edge and the other
within `c` of the low edge, with their cells pinned to the two extreme
columns. -/
lemma wrapDelta_cases (c Wd : ℚ) (gw : ℕ) (hc : 0 < c) (hW : (gw : ℚ) * c = Wd)
    (xi xj : ℚ) (hxi0 : 0 ≤ xi) (hxiW : xi < Wd) (hxj0 : 0 ≤ xj) (hxjW : xj < Wd)
    (h : |wrapDelta Wd (xj - xi)| < c) :
    (⌊xi / c⌋ - 1 ≤ ⌊xj / c⌋ ∧ ⌊xj / c⌋ ≤ ⌊xi / c⌋ + 1) ∨
    (Wd - c < xj ∧ ⌊xj / c⌋ = (gw : ℤ) - 1 ∧ ⌊xi / c⌋ = 0) ∨
    (xj < c ∧ ⌊xj / c⌋ = 0 ∧ ⌊xi / c⌋ = (gw : ℤ) - 1) := by
  unfold wrapDelta at h
  split_ifs at h with h1 h2
  · right; left
    rw [abs_lt] at h
    have hd : Wd - c < xj - xi := by linarith [h.1]
    have hxj_low : Wd - c < xj := by linarith
    have hxi_hi : xi < c := by linarith
    refine ⟨hxj_low, ?_, ?_⟩
    · apply floor_between c xj ((gw : ℤ) - 1) hc
      · push_cast
        have hgc : ((gw : ℚ) - 1) * c = Wd - c := by rw [← hW]; ring
        linarith
      · push_cast
        have hgc : (((gw : ℚ) - 1) + 1) * c = Wd := by rw [← hW]; ring
        linarith
    · apply floor_between c xi 0 hc
      · push_cast
        linarith
      · push_cast
        linarith
  · right; right
    rw [abs_lt] at h
    have hd : xj - xi < c - Wd := by linarith [h.2]
    have hxj_hi : xj < c := by linarith
    have hxi_low : Wd - c < xi := by linarith
    refine ⟨hxj_hi, ?_, ?_⟩
    · apply floor_between c xj 0 hc
      · push_cast
        linarith
      · push_cast
        linarith
    · apply floor_between c xi ((gw : ℤ) - 1) hc
      · push_cast
        have hgc : ((gw : ℚ) - 1) * c = Wd - c := by rw [← hW]; ring
        linarith
      · push_cast
        have hgc : (((gw : ℚ) - 1) + 1) * c = Wd := by rw [← hW]; ring
        linarith
  · left
    exact floor_within_one c xj xi hc h

/-- A particle `j` inserted into flat cell `tx + ty * gw` is visited by the
3×3 scan of particle `i` whenever that cell is in grid bounds and within
one column and one row of `i`'s primary cell. -/
lemma visited_of_cell (W H c : ℚ) (ps : List (ℚ × ℚ)) (i j : ℕ) (gw gh : ℕ)
    (flat tx ty : ℤ) (hval : flat = tx + ty * gw)
    (hflat : flat ∈ ghostCells gw gh c W H (ps.getD j (0, 0)))
    (hne : j ≠ i) (hjlen : j < ps.length)
    (htx0 : 0 ≤ tx) (htxg : tx < (gw : ℤ)) (hty0 : 0 ≤ ty) (htyg : ty < (gh : ℤ))
    (hsx1 : ⌊(ps.getD i (0, 0)).1 / c⌋ - 1 ≤ tx)
    (hsx2 : tx ≤ ⌊(ps.getD i (0, 0)).1 / c⌋ + 1)
    (hsy1 : ⌊(ps.getD i (0, 0)).2 / c⌋ - 1 ≤ ty)
    (hsy2 : ty ≤ ⌊(ps.getD i (0, 0)).2 / c⌋ + 1) :
    j ∈ visitedNeighbors (updateGrid gw gh c W H ps) gw gh c i (ps.getD i (0, 0)) := by
  have hflat0 : 0 ≤ flat := by
    rw [hval]
    exact add_nonneg htx0 (mul_nonneg hty0 (Int.natCast_nonneg gw))
  have hflatlt : flat < ((gw * gh : ℕ) : ℤ) := by
    rw [hval]
    have h1 : ty ≤ (gh : ℤ) - 1 := by omega
    have h2 : ty * gw ≤ ((gh : ℤ) - 1) * gw :=
      mul_le_mul_of_nonneg_right h1 (Int.natCast_nonneg gw)
    have h3 : ((gh : ℤ) - 1) * gw = (gh : ℤ) * gw - gw := by ring
    have h4 : ((gw * gh : ℕ) : ℤ) = (gh : ℤ) * gw := by push_cast; ring
    linarith
  have hmem := mem_updateGrid gw gh c W H ps j flat hjlen hflat hflat0 hflatlt
  apply mem_visitedNeighbors (updateGrid gw gh c W H ps) gw gh c i _ j flat hne
  · rw [hval]
    exact mem_scanCells gw gh c _ tx ty hsx1 hsx2 hsy1 hsy2 htx0 htxg hty0 htyg
  · exact hmem

/-- C1 amended: when `W` and `H` are exact integer multiples of the cell
size (`radius_max`), the 3×3-cell scan with ghost insertion visits every
other particle at toroidal distance strictly below `radius_max` — i.e. the
brute-force neighbor set is contained in the visited set, for all
particles including those near edges and corners. -/
theorem grid_scan_complete (W H cellSize : ℚ) (ps : List (ℚ × ℚ))
    (i j gw gh : ℕ) (hc : 0 < cellSize)
    (hdims : simGridDims W H cellSize = (gw, gh))
    (hW : (gw : ℚ) * cellSize = W) (hH : (gh : ℚ) * cellSize = H)
    (hrange : ∀ p ∈ ps, 0 ≤ p.1 ∧ p.1 < W ∧ 0 ≤ p.2 ∧ p.2 < H)
    (hi : i < ps.length)
    (hj : j ∈ bruteForceNeighbors W H cellSize ps i) :
    j ∈ visitedNeighbors (updateGrid gw gh cellSize W H ps) gw gh cellSize i
      (ps.getD i (0, 0)) := by
  unfold bruteForceNeighbors at hj
  simp only [List.mem_filter, List.mem_range, decide_eq_true_eq] at hj
  obtain ⟨hjlen, hne, hdist⟩ := hj
  have hpimem : ps.getD i (0, 0) ∈ ps := by
    rw [List.getD_eq_getElem ps (0, 0) hi]
    exact List.getElem_mem hi
  have hpjmem : ps.getD j (0, 0) ∈ ps := by
    rw [List.getD_eq_getElem ps (0, 0) hjlen]
    exact List.getElem_mem hjlen
  obtain ⟨hpi1, hpi2, hpi3, hpi4⟩ := hrange _ hpimem
  obtain ⟨hpj1, hpj2, hpj3, hpj4⟩ := hrange _ hpjmem
  have hsq : (wrapDelta W ((ps.getD j (0, 0)).1 - (ps.getD i (0, 0)).1)) ^ 2 + (wrapDelta H ((ps.getD j (0, 0)).2 - (ps.getD i (0, 0)).2)) ^ 2
      < cellSize ^ 2 := hdist
  have hdx : |wrapDelta W ((ps.getD j (0, 0)).1 - (ps.getD i (0, 0)).1)| < cellSize := by
    by_contra habs
    push_neg at habs
    have h2 : cellSize ^ 2 ≤ (wrapDelta W ((ps.getD j (0, 0)).1 - (ps.getD i (0, 0)).1)) ^ 2 := by
      calc cellSize ^ 2 ≤ |wrapDelta W ((ps.getD j (0, 0)).1 - (ps.getD i (0, 0)).1)| ^ 2 :=
            pow_le_pow_left₀ hc.le habs 2
        _ = (wrapDelta W ((ps.getD j (0, 0)).1 - (ps.getD i (0, 0)).1)) ^ 2 := sq_abs _
    nlinarith [sq_nonneg (wrapDelta H ((ps.getD j (0, 0)).2 - (ps.getD i (0, 0)).2))]
  have hdy : |wrapDelta H ((ps.getD j (0, 0)).2 - (ps.getD i (0, 0)).2)| < cellSize := by
    by_contra habs
    push_neg at habs
    have h2 : cellSize ^ 2 ≤ (wrapDelta H ((ps.getD j (0, 0)).2 - (ps.getD i (0, 0)).2)) ^ 2 := by
      calc cellSize ^ 2 ≤ |wrapDelta H ((ps.getD j (0, 0)).2 - (ps.getD i (0, 0)).2)| ^ 2 :=
            pow_le_pow_left₀ hc.le habs 2
        _ = (wrapDelta H ((ps.getD j (0, 0)).2 - (ps.getD i (0, 0)).2)) ^ 2 := sq_abs _
    nlinarith [sq_nonneg (wrapDelta W ((ps.getD j (0, 0)).1 - (ps.getD i (0, 0)).1))]
  have hx := wrapDelta_cases cellSize W gw hc hW (ps.getD i (0, 0)).1 (ps.getD j (0, 0)).1 hpi1 hpi2 hpj1 hpj2 hdx
  have hy := wrapDelta_cases cellSize H gh hc hH (ps.getD i (0, 0)).2 (ps.getD j (0, 0)).2 hpi3 hpi4 hpj3 hpj4 hdy
  have hpj2m : (ps.getD j (0, 0)).1 < (gw : ℚ) * cellSize := by rw [hW]; exact hpj2
  have hpj4m : (ps.getD j (0, 0)).2 < (gh : ℚ) * cellSize := by rw [hH]; exact hpj4
  have hfx := floor_nonneg_lt cellSize (ps.getD j (0, 0)).1 gw hc hpj1 hpj2m
  have hfy := floor_nonneg_lt cellSize (ps.getD j (0, 0)).2 gh hc hpj3 hpj4m
  have hfxi := floor_nonneg_lt cellSize (ps.getD i (0, 0)).1 gw hc hpi1 (by rw [hW]; exact hpi2)
  have hfyi := floor_nonneg_lt cellSize (ps.getD i (0, 0)).2 gh hc hpi3 (by rw [hH]; exact hpi4)
  rcases hx with hxd | hxr | hxl <;> rcases hy with hyd | hyb | hyt
  · exact visited_of_cell W H cellSize ps i j gw gh _ ⌊(ps.getD j (0, 0)).1 / cellSize⌋
      ⌊(ps.getD j (0, 0)).2 / cellSize⌋ rfl (mem_ghostCells_primary gw gh cellSize W H (ps.getD j (0, 0)))
      hne hjlen hfx.1 hfx.2 hfy.1 hfy.2 hxd.1 hxd.2 hyd.1 hyd.2
  · exact visited_of_cell W H cellSize ps i j gw gh _ ⌊(ps.getD j (0, 0)).1 / cellSize⌋
      (⌊(ps.getD j (0, 0)).2 / cellSize⌋ - gh + 1) rfl
      (mem_ghostCells_nb gw gh cellSize W H (ps.getD j (0, 0)) hyb.1)
      hne hjlen hfx.1 hfx.2 (by omega) (by omega) hxd.1 hxd.2
      (by rw [hyb.2.2]; omega) (by rw [hyb.2.2]; omega)
  · exact visited_of_cell W H cellSize ps i j gw gh _ ⌊(ps.getD j (0, 0)).1 / cellSize⌋
      (⌊(ps.getD j (0, 0)).2 / cellSize⌋ + gh - 1) rfl
      (mem_ghostCells_nt gw gh cellSize W H (ps.getD j (0, 0)) hyt.1)
      hne hjlen hfx.1 hfx.2 (by omega) (by omega) hxd.1 hxd.2
      (by rw [hyt.2.2]; omega) (by rw [hyt.2.2]; omega)
  · exact visited_of_cell W H cellSize ps i j gw gh _
      (⌊(ps.getD j (0, 0)).1 / cellSize⌋ - gw + 1) ⌊(ps.getD j (0, 0)).2 / cellSize⌋ rfl
      (mem_ghostCells_nr gw gh cellSize W H (ps.getD j (0, 0)) hxr.1)
      hne hjlen (by omega) (by omega) hfy.1 hfy.2
      (by rw [hxr.2.2]; omega) (by rw [hxr.2.2]; omega) hyd.1 hyd.2
  · exact visited_of_cell W H cellSize ps i j gw gh _
      (⌊(ps.getD j (0, 0)).1 / cellSize⌋ - gw + 1) (⌊(ps.getD j (0, 0)).2 / cellSize⌋ - gh + 1) rfl
      (mem_ghostCells_nr_nb gw gh cellSize W H (ps.getD j (0, 0)) hxr.1 hyb.1)
      hne hjlen (by omega) (by omega) (by omega) (by omega)
      (by rw [hxr.2.2]; omega) (by rw [hxr.2.2]; omega)
      (by rw [hyb.2.2]; omega) (by rw [hyb.2.2]; omega)
  · exact visited_of_cell W H cellSize ps i j gw gh _
      (⌊(ps.getD j (0, 0)).1 / cellSize⌋ - gw + 1) (⌊(ps.getD j (0, 0)).2 / cellSize⌋ + gh - 1) rfl
      (mem_ghostCells_nr_nt gw gh cellSize W H (ps.getD j (0, 0)) hxr.1 hyt.1)
      hne hjlen (by omega) (by omega) (by omega) (by omega)
      (by rw [hxr.2.2]; omega) (by rw [hxr.2.2]; omega)
      (by rw [hyt.2.2]; omega) (by rw [hyt.2.2]; omega)
  · exact visited_of_cell W H cellSize ps i j gw gh _
      (⌊(ps.getD j (0, 0)).1 / cellSize⌋ + gw - 1) ⌊(ps.getD j (0, 0)).2 / cellSize⌋ rfl
      (mem_ghostCells_nl gw gh cellSize W H (ps.getD j (0, 0)) hxl.1)
      hne hjlen (by omega) (by omega) hfy.1 hfy.2
      (by rw [hxl.2.2]; omega) (by rw [hxl.2.2]; omega) hyd.1 hyd.2
  · exact visited_of_cell W H cellSize ps i j gw gh _
      (⌊(ps.getD j (0, 0)).1 / cellSize⌋ + gw - 1) (⌊(ps.getD j (0, 0)).2 / cellSize⌋ - gh + 1) rfl
      (mem_ghostCells_nl_nb gw gh cellSize W H (ps.getD j (0, 0)) hxl.1 hyb.1)
      hne hjlen (by omega) (by omega) (by omega) (by omega)
      (by rw [hxl.2.2]; omega) (by rw [hxl.2.2]; omega)
      (by rw [hyb.2.2]; omega) (by rw [hyb.2.2]; omega)
  · exact visited_of_cell W H cellSize ps i j gw gh _
      (⌊(ps.getD j (0, 0)).1 / cellSize⌋ + gw - 1) (⌊(ps.getD j (0, 0)).2 / cellSize⌋ + gh - 1) rfl
      (mem_ghostCells_nl_nt gw gh cellSize W H (ps.getD j (0, 0)) hxl.1 hyt.1)
      hne hjlen (by omega) (by omega) (by omega) (by omega)
      (by rw [hxl.2.2]; omega) (by rw [hxl.2.2]; omega)
      (by rw [hyt.2.2]; omega) (by rw [hyt.2.2]; omega)

theorem grid_scan_complete_witness :
    1 ∈ visitedNeighbors (updateGrid 2 2 50 100 100 [((10 : ℚ), 10), (95, 10)])
      2 2 50 0 ([((10 : ℚ), 10), ((95 : ℚ), 10)].getD 0 (0, 0)) :=
  grid_scan_complete 100 100 50 [((10 : ℚ), 10), (95, 10)] 0 1 2 2
    (by norm_num)
    (by norm_num [simGridDims]; rfl)
    (by norm_num) (by norm_num)
    (by intro p hp
        rcases List.mem_pair.mp hp with h | h <;> rw [h] <;> norm_num)
    (by norm_num)
    (by norm_num [bruteForceNeighbors, torDistSq, torDelta, wrapDelta, normSq,
      List.range_succ, List.filter])

/-- C1 counterexample: with `W = 230`, `H = 100`, `radius_max = 50` (so the
grid is the code's `ceil(230/50) × ceil(100/50) = 5 × 2` and the last
column is only 30 px wide), particle 1 at `(195, 10)` is within toroidal
distance `45 < 50` of particle 0 at `(10, 10)`, yet the 3×3 scan around
particle 0's primary cell never visits it: particle 1's `near_right` ghost
index `cell_x - grid_width + 1 = 3 - 5 + 1 = -1` is negative (its primary
cell is not in the last column because the world width is not a multiple
of the cell size), so the ghost lands in the wrong cell via Python
negative indexing instead of in column 0. -/
theorem grid_scan_omits_close_neighbor :
    simGridDims 230 100 50 = (5, 2) ∧
    1 ∈ bruteForceNeighbors 230 100 50 [((10 : ℚ), 10), (195, 10)] 0 ∧
    1 ∉ visitedNeighbors (updateGrid 5 2 50 230 100 [((10 : ℚ), 10), (195, 10)])
      5 2 50 0 (10, 10) := by
  refine ⟨?_, ?_, ?_⟩
  · show ((⌈(230 : ℚ) / 50⌉).toNat, (⌈(100 : ℚ) / 50⌉).toNat) = (5, 2)
    have h1 : ⌈(230 : ℚ) / 50⌉ = 5 := by
      rw [Int.ceil_eq_iff]
      norm_num
    have h2 : ⌈(100 : ℚ) / 50⌉ = 2 := by
      rw [Int.ceil_eq_iff]
      norm_num
    rw [h1, h2]
    rfl
  · norm_num [bruteForceNeighbors, torDistSq, torDelta, wrapDelta, normSq,
      List.range_succ, List.filter]
  · norm_num [visitedNeighbors, updateGrid, insertParticle, ghostCells, gridAppend,
      pyIdx, scanCells, List.range_succ, List.filter, List.flatMap, List.set,
      List.getD]

end ParticleLife
